import Mathlib

/-!
Verification of the Annotation Store core of `vscode-annotate`.

Shallow embedding of `src/types.ts` (the `Annotation` data model and the
`AnnotationStorage` class) and `src/gitService.ts` (the `GitService` class).

Modelling conventions:
- The asynchronous TypeScript methods are embedded as explicit state-passing
  functions `SysState → ... → SysState × Option String`, where the second
  component is the surfaced warning or propagated error message (`none` on
  silent success).  A method that cannot throw past its boundary (such as
  `loadAnnotations`, whose body is wrapped in a catch-all) has its error
  channel used only for warnings.
- `fs.readFile` + `JSON.parse` outcomes for the per-project document file
  are modelled by the file system map `SysState.disk`: a missing key is
  ENOENT, `DiskDoc.malformed` is any other read error or a JSON parse
  failure, and `DiskDoc.valid d` is a successful read of document `d`.
- `Date.now()` is passed in as an explicit `now : Nat` parameter
  (milliseconds since epoch).
- The git working tree is the association list `disk`; `committedDisk` is
  the tree at HEAD.  After `git add .` (which stages every difference from
  HEAD), simple-git's status reports an empty `staged`/`created`/
  `modified`/`deleted` set exactly when the working tree equals HEAD, so
  the "nothing staged" check of `commitAndPush` is modelled as
  `disk = committedDisk`.  The outcome of a network `pull` is an explicit
  `Except` parameter: an error message, or the post-merge working tree.
- `path` functions are the Node.js `path.posix` implementations; strings
  are hashed through a full executable SHA-256 (FIPS 180-4) over the UTF-8
  bytes, written with `Nat` arithmetic mod 2^32.
-/

/- Split a character list at every `/`, like `String.splitOn "/"`. -/
def splitOnSlash : List Char → List (List Char)
  | [] => [[]]
  | c :: rest =>
      let r := splitOnSlash rest
      if c = '/' then [] :: r
      else
        match r with
        | [] => [[c]]
        | seg :: more => (c :: seg) :: more

def headIsSlash (p : String) : Bool :=
  match p.data with
  | c :: _ => c = '/'
  | [] => false

def lastIsSlash (p : String) : Bool :=
  match p.data.getLast? with
  | some c => c = '/'
  | none => false

/- Join with single `/` separators. -/
def joinSlash : List String → String
  | [] => ""
  | [x] => x
  | x :: y :: rest => x ++ "/" ++ joinSlash (y :: rest)

/- Node.js `path.posix.normalize`: resolve `.` and `..` segments, collapse
separator runs, preserve a trailing separator, map the empty string to `.`. -/
def pathNormalize (p : String) : String :=
  if p = "" then "."
  else
    let isAbs := headIsSlash p
    let trailing := lastIsSlash p
    let segs := ((splitOnSlash p.data).map String.mk).filter (fun s => s ≠ "" ∧ s ≠ ".")
    let resolved := segs.foldl (fun acc seg =>
      if seg = ".." then
        match acc.getLast? with
        | some last =>
            if last = ".." then acc ++ [".."] else acc.dropLast
        | none => if isAbs then acc else acc ++ [".."]
      else acc ++ [seg]) []
    let body := joinSlash resolved
    if body = "" then
      (if isAbs then "/" else if trailing then "./" else ".")
    else
      let body := if trailing then body ++ "/" else body
      if isAbs then "/" ++ body else body

/- Node.js `path.posix.join` restricted to two segments, as used by
`getAnnotationFilePath`: drop empty segments, join with `/`, normalize. -/
def pathJoin (a b : String) : String :=
  let parts := ([a, b].filter (fun s => s ≠ ""))
  if parts = [] then "." else pathNormalize (joinSlash parts)

/- Node.js `path.posix.basename` (one-argument form): the last nonempty
segment, ignoring trailing separators; empty for `/` and for the empty
string. -/
def pathBasename (p : String) : String :=
  let rev := p.data.reverse.dropWhile (fun c => c = '/')
  String.mk (rev.takeWhile (fun c => c ≠ '/')).reverse

/-! SHA-256 (FIPS 180-4), executable over `Nat` with wrap-around mod 2^32,
used by `hashProjectPath` via Node's `createHash('sha256')`. -/

def w32 (x : Nat) : Nat := x % 4294967296

def rotr32 (n x : Nat) : Nat := Nat.lor (x / 2 ^ n) (x % 2 ^ n * 2 ^ (32 - n))

def shaCh (x y z : Nat) : Nat := Nat.xor (Nat.land x y) (Nat.land (Nat.xor x 4294967295) z)

def shaMaj (x y z : Nat) : Nat := Nat.xor (Nat.xor (Nat.land x y) (Nat.land x z)) (Nat.land y z)

def shaS0 (x : Nat) : Nat := Nat.xor (Nat.xor (rotr32 2 x) (rotr32 13 x)) (rotr32 22 x)

def shaS1 (x : Nat) : Nat := Nat.xor (Nat.xor (rotr32 6 x) (rotr32 11 x)) (rotr32 25 x)

def shaLs0 (x : Nat) : Nat := Nat.xor (Nat.xor (rotr32 7 x) (rotr32 18 x)) (x / 8)

def shaLs1 (x : Nat) : Nat := Nat.xor (Nat.xor (rotr32 17 x) (rotr32 19 x)) (x / 1024)

/- The 64 SHA-256 round constants (FIPS 180-4 section 4.2.2), written in
decimal. -/
def shaK : List Nat :=
  [1116352408, 1899447441, 3049323471, 3921009573,
   961987163, 1508970993, 2453635748, 2870763221,
   3624381080, 310598401, 607225278, 1426881987,
   1925078388, 2162078206, 2614888103, 3248222580,
   3835390401, 4022224774, 264347078, 604807628,
   770255983, 1249150122, 1555081692, 1996064986,
   2554220882, 2821834349, 2952996808, 3210313671,
   3336571891, 3584528711, 113926993, 338241895,
   666307205, 773529912, 1294757372, 1396182291,
   1695183700, 1986661051, 2177026350, 2456956037,
   2730485921, 2820302411, 3259730800, 3345764771,
   3516065817, 3600352804, 4094571909, 275423344,
   430227734, 506948616, 659060556, 883997877,
   958139571, 1322822218, 1537002063, 1747873779,
   1955562222, 2024104815, 2227730452, 2361852424,
   2428436474, 2756734187, 3204031479, 3329325298]

/- The eight 32-bit words of a SHA-256 working state. -/
structure Hash8 where
  ha : Nat
  hb : Nat
  hc : Nat
  hd : Nat
  he : Nat
  hf : Nat
  hg : Nat
  hh : Nat
deriving DecidableEq

/- SHA-256 initial hash value (FIPS 180-4 section 5.3.3), in decimal. -/
def shaH0 : Hash8 :=
  { ha := 1779033703, hb := 3144134277, hc := 1013904242, hd := 2773480762,
    he := 1359893119, hf := 2600822924, hg := 528734635, hh := 1541459225 }

/- One round of the SHA-256 compression function. -/
def shaRound (st : Hash8) (kt wt : Nat) : Hash8 :=
  let t1 := w32 (st.hh + shaS1 st.he + shaCh st.he st.hf st.hg + kt + wt)
  let t2 := w32 (shaS0 st.ha + shaMaj st.ha st.hb st.hc)
  { ha := w32 (t1 + t2), hb := st.ha, hc := st.hb, hd := st.hc,
    he := w32 (st.hd + t1), hf := st.he, hg := st.hf, hh := st.hg }

/- Message-schedule extension, carried with the most recent word first so
that `w[t-2]`, `w[t-7]`, `w[t-15]`, `w[t-16]` are positions 1, 6, 14, 15. -/
def extendScheduleRev : Nat → List Nat → List Nat
  | 0, rev => rev
  | n + 1, rev =>
      let nw := w32 (shaLs1 (rev.getD 1 0) + rev.getD 6 0 +
                     shaLs0 (rev.getD 14 0) + rev.getD 15 0)
      extendScheduleRev n (nw :: rev)

/- Big-endian packing of bytes into 32-bit words. -/
def bytesToWords : List Nat → List Nat
  | b0 :: b1 :: b2 :: b3 :: rest => (((b0 * 256 + b1) * 256 + b2) * 256 + b3) :: bytesToWords rest
  | _ => []

/- Process one 64-byte block. -/
def processBlock (st : Hash8) (block : List Nat) : Hash8 :=
  let ws := (extendScheduleRev 48 (bytesToWords block).reverse).reverse
  let fin := (shaK.zip ws).foldl (fun acc kw => shaRound acc kw.1 kw.2) st
  { ha := w32 (st.ha + fin.ha), hb := w32 (st.hb + fin.hb), hc := w32 (st.hc + fin.hc),
    hd := w32 (st.hd + fin.hd), he := w32 (st.he + fin.he), hf := w32 (st.hf + fin.hf),
    hg := w32 (st.hg + fin.hg), hh := w32 (st.hh + fin.hh) }

/- Big-endian serialization of `n` into exactly `k` bytes. -/
def toBytesBE : Nat → Nat → List Nat
  | 0, _ => []
  | k + 1, n => toBytesBE k (n / 256) ++ [n % 256]

/- Split into 64-byte blocks; the fuel argument (instantiated with the list
length) only makes the recursion structural. -/
def chunk64F : Nat → List Nat → List (List Nat)
  | 0, _ => []
  | _, [] => []
  | fuel + 1, b :: rest => (b :: rest).take 64 :: chunk64F fuel ((b :: rest).drop 64)

def chunk64 (l : List Nat) : List (List Nat) := chunk64F l.length l

/- SHA-256 padding: `0x80`, zeros, then the bit length as 8 big-endian
bytes, to a multiple of 64 bytes. -/
def padMessage (msg : List Nat) : List Nat :=
  let len := msg.length
  let zeros := (119 - len % 64) % 64
  msg ++ 128 :: List.replicate zeros 0 ++ toBytesBE 8 (8 * len)

/- UTF-8 encoding of one character, as Node's `hash.update(str)` uses. -/
def utf8Bytes (c : Char) : List Nat :=
  let n := c.toNat
  if n < 128 then [n]
  else if n < 2048 then [192 + n / 64, 128 + n % 64]
  else if n < 65536 then [224 + n / 4096, 128 + n / 64 % 64, 128 + n % 64]
  else [240 + n / 262144, 128 + n / 4096 % 64, 128 + n / 64 % 64, 128 + n % 64]

def sha256Bytes (msg : List Nat) : List Nat :=
  let fin := (chunk64 (padMessage msg)).foldl processBlock shaH0
  toBytesBE 4 fin.ha ++ toBytesBE 4 fin.hb ++ toBytesBE 4 fin.hc ++ toBytesBE 4 fin.hd ++
  toBytesBE 4 fin.he ++ toBytesBE 4 fin.hf ++ toBytesBE 4 fin.hg ++ toBytesBE 4 fin.hh

def hexDigit (n : Nat) : Char :=
  if n < 10 then Char.ofNat (48 + n) else Char.ofNat (87 + n)

def bytesToHex : List Nat → List Char
  | [] => []
  | b :: rest => hexDigit (b / 16) :: hexDigit (b % 16) :: bytesToHex rest

def stringBytes (s : String) : List Nat :=
  s.data.foldr (fun c acc => utf8Bytes c ++ acc) []

/- Lower-case hex digest of a string, as `createHash('sha256')
.update(s).digest('hex')`, as a character list. -/
def sha256hexChars (s : String) : List Char :=
  bytesToHex (sha256Bytes (stringBytes s))

def sha256hex (s : String) : String :=
  String.mk (sha256hexChars s)

/-! The data model of `src/types.ts`. -/

/- `Annotation` of `src/types.ts`.  `line`, `column` and `timestamp` are
integral JavaScript numbers, embedded as `Nat`. -/
structure Annotation where
  id : String
  filePath : String
  line : Nat
  column : Nat
  text : String
  author : String
  timestamp : Nat
  projectPath : String
deriving DecidableEq

/- `AnnotationData` of `src/types.ts`: the on-disk document. -/
structure AnnotationData where
  annotations : List Annotation
  version : String
deriving DecidableEq

/- Outcome of reading and parsing a document file that is present on disk:
either some read error other than ENOENT or a JSON parse error
(`malformed`), or a well-formed document. -/
inductive DiskDoc
  | malformed
  | valid (data : AnnotationData)
deriving DecidableEq

/- The git repository state of `GitService`: the configured remotes, the
messages of the commits created so far (most recent first), and how many
pushes were performed. -/
structure GitState where
  remotes : List String
  commits : List String
  pushedCount : Nat
deriving DecidableEq

/- Combined state of one `AnnotationStorage` and its `GitService`.
`repoPath` is `GitService.repoPath` (and its `git` handle: both are set
together by `initialize`).  `mem` is the private
`annotations: Map<string, Annotation[]>`.  `disk` maps an absolute file
path to the document stored there (the working tree); `committedDisk` is
the same map as of the last commit (HEAD). -/
structure SysState where
  repoPath : Option String
  mem : String → Option (List Annotation)
  disk : List (String × DiskDoc)
  committedDisk : List (String × DiskDoc)
  git : GitState

/- `Map.set` on the in-memory index. -/
def setMem (m : String → Option (List Annotation)) (p : String) (v : List Annotation) :
    String → Option (List Annotation) :=
  fun q => if q = p then some v else m q

/- Overwrite-or-append on the file-system association list. -/
def setAssoc (k : String) (v : DiskDoc) : List (String × DiskDoc) → List (String × DiskDoc)
  | [] => [(k, v)]
  | (q, w) :: rest => if q = k then (k, v) :: rest else (q, w) :: setAssoc k v rest

def lookupAssoc (k : String) : List (String × DiskDoc) → Option DiskDoc
  | [] => none
  | (q, w) :: rest => if q = k then some w else lookupAssoc k rest

/-! The `AnnotationStorage` methods of `src/types.ts`, and the
`GitService` methods of `src/gitService.ts` they call. -/

/- `AnnotationStorage.hashProjectPath`: sanitized basename, `_`, and the
sha256 hex digest of the normalized path truncated to 16 characters.  The
sanitizer is `replace(/[^a-zA-Z0-9-_]/g, '_')`: it keeps ASCII letters,
digits, `-` and `_` and replaces every other character (the regex ranges
are ASCII-only, as is `Char.isAlphanum`). -/
def sanitizeChar (c : Char) : Char :=
  if c.isAlphanum ∨ c = '-' ∨ c = '_' then c else '_'

def hashProjectPath (projectPath : String) : String :=
  let normalized := pathNormalize projectPath
  let hash := String.mk ((sha256hexChars normalized).take 16)
  let projectName := String.mk ((pathBasename normalized).data.map sanitizeChar)
  projectName ++ "_" ++ hash

/- `AnnotationStorage.getAnnotationFilePath`:
`path.join(path.join(repoPath, projectHash), 'annotations.json')`. -/
def getAnnotationFilePath (projectPath repoPath : String) : String :=
  pathJoin (pathJoin repoPath (hashProjectPath projectPath)) "annotations.json"

/- `AnnotationStorage.loadAnnotations`.  Returns early when no repository
is configured.  A missing file (ENOENT) installs an empty collection with
no warning; any other read or parse failure installs an empty collection
and surfaces the warning; a valid document replaces the collection.  The
whole body is wrapped in a catch-all, so the function is total and its
second component is only ever a warning, never a thrown error. -/
def loadAnnotations (s : SysState) (projectPath : String) : SysState × Option String :=
  match s.repoPath with
  | none => (s, none)
  | some repoPath =>
      let annotationFile := getAnnotationFilePath projectPath repoPath
      match lookupAssoc annotationFile s.disk with
      | none => ({ s with mem := setMem s.mem projectPath [] }, none)
      | some DiskDoc.malformed =>
          ({ s with mem := setMem s.mem projectPath [] }, some "Failed to load annotations")
      | some (DiskDoc.valid data) =>
          ({ s with mem := setMem s.mem projectPath data.annotations }, none)

/- `AnnotationStorage.saveAnnotations`: full-document rewrite of
`{ version: '1.0', annotations }`; throws when no repository is
configured. -/
def saveAnnotations (s : SysState) (projectPath : String) : SysState × Option String :=
  match s.repoPath with
  | none => (s, some "Annotation repository not configured")
  | some repoPath =>
      let annotationFile := getAnnotationFilePath projectPath repoPath
      let annotations := (s.mem projectPath).getD []
      let data : AnnotationData := { version := "1.0", annotations := annotations }
      ({ s with disk := setAssoc annotationFile (DiskDoc.valid data) s.disk }, none)

/- `AnnotationStorage.addAnnotation`: append to the project's collection,
then persist. -/
def addAnnotation (s : SysState) (ann : Annotation) : SysState × Option String :=
  let coll := (s.mem ann.projectPath).getD []
  let s1 := { s with mem := setMem s.mem ann.projectPath (coll ++ [ann]) }
  saveAnnotations s1 ann.projectPath

/- `AnnotationStorage.getAnnotationsForFile`:
`projectAnnotations.filter(a => a.filePath === filePath)`. -/
def getAnnotationsForFile (s : SysState) (filePath projectPath : String) : List Annotation :=
  ((s.mem projectPath).getD []).filter (fun a => a.filePath == filePath)

/- `AnnotationStorage.getAllAnnotations`. -/
def getAllAnnotations (s : SysState) (projectPath : String) : List Annotation :=
  (s.mem projectPath).getD []

/- `AnnotationStorage.removeAnnotation`: keep the annotations whose id
differs, then persist. -/
def removeAnnotation (s : SysState) (id projectPath : String) : SysState × Option String :=
  let coll := (s.mem projectPath).getD []
  let filtered := coll.filter (fun a => a.id != id)
  let s1 := { s with mem := setMem s.mem projectPath filtered }
  saveAnnotations s1 projectPath

/- In-place mutation of the first annotation `find` returns: replace its
`text` and `timestamp`, leave every other element and all other fields
untouched. -/
def updateFirst (id newText : String) (now : Nat) : List Annotation → List Annotation
  | [] => []
  | a :: rest =>
      if a.id == id then { a with text := newText, timestamp := now } :: rest
      else a :: updateFirst id newText now rest

/- `AnnotationStorage.updateAnnotation`: find by id; silently do nothing
when absent; otherwise mutate text and timestamp and persist. -/
def updateAnnotation (s : SysState) (id projectPath newText : String) (now : Nat) :
    SysState × Option String :=
  let coll := (s.mem projectPath).getD []
  match coll.find? (fun a => a.id == id) with
  | none => (s, none)
  | some _ =>
      let s1 := { s with mem := setMem s.mem projectPath (updateFirst id newText now coll) }
      saveAnnotations s1 projectPath

/- `AnnotationStorage.getAnnotationById`. -/
def getAnnotationById (s : SysState) (id projectPath : String) : Option Annotation :=
  ((s.mem projectPath).getD []).find? (fun a => a.id == id)

/- `GitService.pull`: throws when not initialized; a no-op success when no
remote is configured; otherwise the network outcome decides between a
wrapped error (repository state untouched) and a merged working tree. -/
def gitPull (s : SysState) (outcome : Except String (List (String × DiskDoc))) :
    SysState × Option String :=
  match s.repoPath with
  | none => (s, some "Git not initialized")
  | some _ =>
      if s.git.remotes = [] then (s, none)
      else
        match outcome with
        | Except.error e => (s, some ("Git pull failed: " ++ e))
        | Except.ok newDisk => ({ s with disk := newDisk, committedDisk := newDisk }, none)

/- `AnnotationStorage.sync`: pull, and only on success reload the
project's collection from disk. -/
def sync (s : SysState) (outcome : Except String (List (String × DiskDoc)))
    (projectPath : String) : SysState × Option String :=
  match gitPull s outcome with
  | (s1, some e) => (s1, some e)
  | (s1, none) => loadAnnotations s1 projectPath

/- `GitService.commitAndPush`: throws when not initialized; stage
everything; when the staged status is empty return silently without a
commit; otherwise commit and, when a remote is configured, push. -/
def commitAndPush (s : SysState) (message : String) : SysState × Option String :=
  match s.repoPath with
  | none => (s, some "Git not initialized")
  | some _ =>
      if s.disk = s.committedDisk then (s, none)
      else
        let g0 := { s.git with commits := message :: s.git.commits }
        let g1 := if g0.remotes = [] then g0 else { g0 with pushedCount := g0.pushedCount + 1 }
        ({ s with committedDisk := s.disk, git := g1 }, none)

/- `AnnotationStorage.commitChanges`: defensive re-save, then
`commitAndPush`. -/
def commitChanges (s : SysState) (projectPath message : String) : SysState × Option String :=
  match saveAnnotations s projectPath with
  | (s1, some e) => (s1, some e)
  | (s1, none) => commitAndPush s1 message

/- Sanitizer following the words of the specification rather than the
source: replace every non-alphanumeric character with an underscore.  Used
only for the refinement comparison against `hashProjectPath`, whose regex
additionally keeps `-` and `_`. -/
def specSanitizeChar (c : Char) : Char :=
  if c.isAlphanum then c else '_'

/- The storage location composed as the specification words it: basename
with every non-alphanumeric character replaced by `_`, an underscore, and
the 256-bit digest of the normalized path truncated to 16 hex
characters. -/
def claimedFilePath (projectPath repoPath : String) : String :=
  let normalized := pathNormalize projectPath
  let digest := String.mk ((sha256hexChars normalized).take 16)
  let name := String.mk ((pathBasename normalized).data.map specSanitizeChar)
  pathJoin (pathJoin repoPath (name ++ "_" ++ digest)) "annotations.json"

/-! Sanity checks of the embedding against known reference values. -/

example : sha256hex "" =
    "e3b0c44298fc1c149afbf4c8996fb92427ae41e4649b934ca495991b7852b855" := by rfl

example : sha256hex "abc" =
    "ba7816bf8f01cfea414140de5dae2223b00361a396177a9cb410ff61f20015ad" := by rfl

example : pathNormalize "/a/./b//c/../d" = "/a/b/d" := by rfl

example : pathBasename "/x/y/proj" = "proj" := by rfl

example : pathNormalize "" = "." := by rfl

example : pathNormalize "a/../.." = ".." := by rfl

example : pathNormalize "/../a" = "/a" := by rfl

example : pathNormalize "/a//b/" = "/a/b/" := by rfl

/-! Helper lemmas about the embedding, shared between the claim proofs. -/

theorem saveAnnotations_mem (s : SysState) (p : String) :
    (saveAnnotations s p).1.mem = s.mem := by
  cases hr : s.repoPath <;> simp [saveAnnotations, hr]

theorem saveAnnotations_repoPath (s : SysState) (p : String) :
    (saveAnnotations s p).1.repoPath = s.repoPath := by
  cases hr : s.repoPath <;> simp [saveAnnotations, hr]

theorem setMem_ne (m : String → Option (List Annotation)) (p : String)
    (v : List Annotation) (q : String) (h : q ≠ p) : setMem m p v q = m q := by
  simp [setMem, h]

theorem setMem_self (m : String → Option (List Annotation)) (p : String)
    (v : List Annotation) : setMem m p v p = some v := by
  simp [setMem]

theorem setAssoc_idem (k : String) (v : DiskDoc) :
    ∀ l : List (String × DiskDoc), setAssoc k v (setAssoc k v l) = setAssoc k v l := by
  intro l
  induction l with
  | nil => simp [setAssoc]
  | cons hd tl ih =>
      obtain ⟨q, w⟩ := hd
      by_cases hq : q = k
      · simp [setAssoc, hq]
      · simp [setAssoc, hq, ih]

theorem loadAnnotations_mem_frame (s : SysState) (p q : String) (h : q ≠ p) :
    (loadAnnotations s p).1.mem q = s.mem q := by
  cases hr : s.repoPath with
  | none => simp [loadAnnotations, hr]
  | some r =>
      cases hd : lookupAssoc (getAnnotationFilePath p r) s.disk with
      | none => simp [loadAnnotations, hr, hd, setMem_ne _ _ _ _ h]
      | some doc =>
          cases doc <;> simp [loadAnnotations, hr, hd, setMem_ne _ _ _ _ h]

theorem gitPull_mem (s : SysState) (po : Except String (List (String × DiskDoc))) :
    (gitPull s po).1.mem = s.mem := by
  cases hr : s.repoPath with
  | none => simp [gitPull, hr]
  | some r =>
      by_cases hrem : s.git.remotes = []
      · simp [gitPull, hr, hrem]
      · cases po <;> simp [gitPull, hr, hrem]

/-- Claim C1: for every project with a configured repository, `loadAnnotations`
degrades instead of failing: a missing document file (ENOENT) installs an
empty collection with no warning; a present but malformed document (read
error other than ENOENT, or a JSON parse failure) installs an empty
collection and surfaces a warning; a valid document installs its
annotations; these cases are exhaustive over the read outcome, and the
function is total, so no error escapes its boundary. -/
theorem loadAnnotations_degrades_gracefully (s : SysState) (p r : String)
    (hrepo : s.repoPath = some r) :
    (lookupAssoc (getAnnotationFilePath p r) s.disk = none →
      loadAnnotations s p = ({ s with mem := setMem s.mem p [] }, none))
  ∧ (lookupAssoc (getAnnotationFilePath p r) s.disk = some DiskDoc.malformed →
      loadAnnotations s p =
        ({ s with mem := setMem s.mem p [] }, some "Failed to load annotations"))
  ∧ (∀ d, lookupAssoc (getAnnotationFilePath p r) s.disk = some (DiskDoc.valid d) →
      loadAnnotations s p = ({ s with mem := setMem s.mem p d.annotations }, none)) := by
  refine ⟨fun h => ?_, fun h => ?_, fun d h => ?_⟩ <;> simp [loadAnnotations, hrepo, h]

/-- Witness for C1 at a concrete state whose disk has no document file. -/
theorem loadAnnotations_degrades_gracefully_witness :
    loadAnnotations
        { repoPath := some "/repo",
          mem := fun _ => none, disk := [], committedDisk := [],
          git := { remotes := [], commits := [], pushedCount := 0 } } "/tmp/proj"
      = ({ repoPath := some "/repo",
           mem := setMem (fun _ => none) "/tmp/proj" [], disk := [], committedDisk := [],
           git := { remotes := [], commits := [], pushedCount := 0 } }, none) :=
  (loadAnnotations_degrades_gracefully
    { repoPath := some "/repo",
      mem := fun _ => none, disk := [], committedDisk := [],
      git := { remotes := [], commits := [], pushedCount := 0 } } "/tmp/proj" "/repo" rfl).1 rfl

/-- Claim C8: when no annotation of the project carries the requested id,
`updateAnnotation` is a silent no-op: the returned state is the input state
(in particular the in-memory collection is untouched and no disk write is
performed) and no error or warning is raised. -/
theorem updateAnnotation_absent_silent_noop (s : SysState) (id p newText : String) (now : Nat)
    (h : ∀ x ∈ getAllAnnotations s p, x.id ≠ id) :
    updateAnnotation s id p newText now = (s, none) := by
  have hfind : ((s.mem p).getD []).find? (fun a => a.id == id) = none := by
    apply List.find?_eq_none.mpr
    intro x hx
    simpa using h x hx
  simp [ updateAnnotation, hfind]

/-- Witness for C8: updating an id that does not occur leaves the concrete
state untouched. -/
theorem updateAnnotation_absent_silent_noop_witness :
    updateAnnotation
        { repoPath := some "/repo",
          mem := fun q => if q = "/tmp/proj" then
              some [{ id := "a1", filePath := "a.ts", line := 10, column := 0,
                      text := "fix this", author := "Alice", timestamp := 100,
                      projectPath := "/tmp/proj" }] else none,
          disk := [], committedDisk := [],
          git := { remotes := ["origin"], commits := [], pushedCount := 0 } }
        "zz" "/tmp/proj" "new" 999
      = ({ repoPath := some "/repo",
           mem := fun q => if q = "/tmp/proj" then
               some [{ id := "a1", filePath := "a.ts", line := 10, column := 0,
                       text := "fix this", author := "Alice", timestamp := 100,
                       projectPath := "/tmp/proj" }] else none,
           disk := [], committedDisk := [],
           git := { remotes := ["origin"], commits := [], pushedCount := 0 } }, none) :=
  updateAnnotation_absent_silent_noop _ "zz" "/tmp/proj" "new" 999 (by decide)

/-- Claim C9: the Path Hasher is deterministic and normalization-invariant:
two textual forms of a project path with the same normalization are mapped
to the same folder name and the same document location, independent of any
machine or user state (the functions take no other input). -/
theorem locationFor_normalization_invariant (p q repo : String)
    (h : pathNormalize p = pathNormalize q) :
    hashProjectPath p = hashProjectPath q
  ∧ getAnnotationFilePath p repo = getAnnotationFilePath q repo := by
  have h1 : hashProjectPath p = hashProjectPath q := by
    unfold hashProjectPath
    rw [h]
  exact ⟨h1, by unfold getAnnotationFilePath; rw [h1]⟩

/-- Witness for C9 on the separator-equivalent forms of one path. -/
theorem locationFor_normalization_invariant_witness :
    hashProjectPath "/tmp/./sub/../proj" = hashProjectPath "/tmp/proj"
  ∧ getAnnotationFilePath "/tmp/./sub/../proj" "/repo"
      = getAnnotationFilePath "/tmp/proj" "/repo" :=
  locationFor_normalization_invariant "/tmp/./sub/../proj" "/tmp/proj" "/repo" (by rfl)

/-- Claim C7: `sync` is atomic with respect to pull failure.  When a remote
is configured and the pull fails, `sync` propagates the wrapped error, the
resulting state is exactly the input state, and in particular the
in-memory collection of every project is unchanged: the reload from disk
is reached only after a successful pull. -/
theorem sync_unchanged_on_pull_failure (s : SysState) (e p : String)
    (hremote : s.git.remotes ≠ []) (hinit : s.repoPath.isSome = true) :
    sync s (Except.error e) p = (s, some ("Git pull failed: " ++ e))
  ∧ ∀ q, (sync s (Except.error e) p).1.mem q = s.mem q := by
  obtain ⟨r, hr⟩ := Option.isSome_iff_exists.mp hinit
  have h1 : gitPull s (Except.error e) = (s, some ("Git pull failed: " ++ e)) := by
    simp [gitPull, hr, hremote]
  have h2 : sync s (Except.error e) p = (s, some ("Git pull failed: " ++ e)) := by
    simp [sync, h1]
  exact ⟨h2, fun q => by rw [h2]⟩

/-- Witness for C7 at a concrete state with one remote. -/
theorem sync_unchanged_on_pull_failure_witness :
    sync
        { repoPath := some "/repo",
          mem := fun q => if q = "/tmp/proj" then
              some [{ id := "a1", filePath := "a.ts", line := 10, column := 0,
                      text := "fix this", author := "Alice", timestamp := 100,
                      projectPath := "/tmp/proj" }] else none,
          disk := [], committedDisk := [],
          git := { remotes := ["origin"], commits := [], pushedCount := 0 } }
        (Except.error "network unreachable") "/tmp/proj"
      = ({ repoPath := some "/repo",
           mem := fun q => if q = "/tmp/proj" then
               some [{ id := "a1", filePath := "a.ts", line := 10, column := 0,
                       text := "fix this", author := "Alice", timestamp := 100,
                       projectPath := "/tmp/proj" }] else none,
           disk := [], committedDisk := [],
           git := { remotes := ["origin"], commits := [], pushedCount := 0 } },
          some ("Git pull failed: " ++ "network unreachable"))
  ∧ ∀ q, (sync
        { repoPath := some "/repo",
          mem := fun q => if q = "/tmp/proj" then
              some [{ id := "a1", filePath := "a.ts", line := 10, column := 0,
                      text := "fix this", author := "Alice", timestamp := 100,
                      projectPath := "/tmp/proj" }] else none,
          disk := [], committedDisk := [],
          git := { remotes := ["origin"], commits := [], pushedCount := 0 } }
        (Except.error "network unreachable") "/tmp/proj").1.mem q
      = (if q = "/tmp/proj" then
           some [{ id := "a1", filePath := "a.ts", line := 10, column := 0,
                   text := "fix this", author := "Alice", timestamp := 100,
                   projectPath := "/tmp/proj" }] else none) :=
  sync_unchanged_on_pull_failure _ "network unreachable" "/tmp/proj" (by decide) rfl

/-- Claim C10: per-project frame property.  Every store operation invoked
with a project path `p` — `loadAnnotations`, `addAnnotation` (whose
project is `a.projectPath`), `updateAnnotation`, `removeAnnotation`, and
`sync` under any pull outcome — leaves the in-memory collection of every
other project `q` unchanged. -/
theorem store_ops_frame_other_projects (s : SysState) (a : Annotation)
    (id p q newText : String) (now : Nat)
    (po : Except String (List (String × DiskDoc)))
    (hq : q ≠ p) (hqa : q ≠ a.projectPath) :
    (loadAnnotations s p).1.mem q = s.mem q
  ∧ ( addAnnotation s a).1.mem q = s.mem q
  ∧ ( updateAnnotation s id p newText now).1.mem q = s.mem q
  ∧ ( removeAnnotation s id p).1.mem q = s.mem q
  ∧ (sync s po p).1.mem q = s.mem q := by
  refine ⟨loadAnnotations_mem_frame s p q hq, ?_, ?_, ?_, ?_⟩
  · show ( addAnnotation s a).1.mem q = s.mem q
    unfold addAnnotation
    rw [saveAnnotations_mem]
    exact setMem_ne _ _ _ _ hqa
  · show ( updateAnnotation s id p newText now).1.mem q = s.mem q
    unfold updateAnnotation
    cases hf : ((s.mem p).getD []).find? (fun x => x.id == id) with
    | none => simp only [ updateAnnotation, hf]
    | some x =>
        simp only [hf]
        rw [saveAnnotations_mem]
        exact setMem_ne _ _ _ _ hq
  · show ( removeAnnotation s id p).1.mem q = s.mem q
    unfold removeAnnotation
    rw [saveAnnotations_mem]
    exact setMem_ne _ _ _ _ hq
  · show (sync s po p).1.mem q = s.mem q
    unfold sync
    cases hgp : gitPull s po with
    | mk s1 w =>
        have hm : s1.mem = s.mem := by
          have := gitPull_mem s po
          rw [hgp] at this
          exact this
        cases w with
        | none =>
            have := loadAnnotations_mem_frame s1 p q hq
            simpa [hm] using this
        | some err => simpa using congrFun hm q

/-- Witness for C10: all five operations on project `/tmp/proj` leave the
collection of `/other` untouched. -/
theorem store_ops_frame_other_projects_witness :
    (loadAnnotations
        { repoPath := some "/repo",
          mem := fun q => if q = "/tmp/proj" then
              some [{ id := "a1", filePath := "a.ts", line := 10, column := 0,
                      text := "fix this", author := "Alice", timestamp := 100,
                      projectPath := "/tmp/proj" }] else none,
          disk := [], committedDisk := [],
          git := { remotes := ["origin"], commits := [], pushedCount := 0 } }
        "/tmp/proj").1.mem "/other"
      = (if ("/other" : String) = "/tmp/proj" then
           some [{ id := "a1", filePath := "a.ts", line := 10, column := 0,
                   text := "fix this", author := "Alice", timestamp := 100,
                   projectPath := "/tmp/proj" }] else none)
  ∧ ( addAnnotation
        { repoPath := some "/repo",
          mem := fun q => if q = "/tmp/proj" then
              some [{ id := "a1", filePath := "a.ts", line := 10, column := 0,
                      text := "fix this", author := "Alice", timestamp := 100,
                      projectPath := "/tmp/proj" }] else none,
          disk := [], committedDisk := [],
          git := { remotes := ["origin"], commits := [], pushedCount := 0 } }
        { id := "b2", filePath := "b.ts", line := 5, column := 0,
          text := "note", author := "Bob", timestamp := 50,
          projectPath := "/tmp/proj" }).1.mem "/other"
      = (if ("/other" : String) = "/tmp/proj" then
           some [{ id := "a1", filePath := "a.ts", line := 10, column := 0,
                   text := "fix this", author := "Alice", timestamp := 100,
                   projectPath := "/tmp/proj" }] else none)
  ∧ ( updateAnnotation
        { repoPath := some "/repo",
          mem := fun q => if q = "/tmp/proj" then
              some [{ id := "a1", filePath := "a.ts", line := 10, column := 0,
                      text := "fix this", author := "Alice", timestamp := 100,
                      projectPath := "/tmp/proj" }] else none,
          disk := [], committedDisk := [],
          git := { remotes := ["origin"], commits := [], pushedCount := 0 } }
        "a1" "/tmp/proj" "fixed" 200).1.mem "/other"
      = (if ("/other" : String) = "/tmp/proj" then
           some [{ id := "a1", filePath := "a.ts", line := 10, column := 0,
                   text := "fix this", author := "Alice", timestamp := 100,
                   projectPath := "/tmp/proj" }] else none)
  ∧ ( removeAnnotation
        { repoPath := some "/repo",
          mem := fun q => if q = "/tmp/proj" then
              some [{ id := "a1", filePath := "a.ts", line := 10, column := 0,
                      text := "fix this", author := "Alice", timestamp := 100,
                      projectPath := "/tmp/proj" }] else none,
          disk := [], committedDisk := [],
          git := { remotes := ["origin"], commits := [], pushedCount := 0 } }
        "a1" "/tmp/proj").1.mem "/other"
      = (if ("/other" : String) = "/tmp/proj" then
           some [{ id := "a1", filePath := "a.ts", line := 10, column := 0,
                   text := "fix this", author := "Alice", timestamp := 100,
                   projectPath := "/tmp/proj" }] else none)
  ∧ (sync
        { repoPath := some "/repo",
          mem := fun q => if q = "/tmp/proj" then
              some [{ id := "a1", filePath := "a.ts", line := 10, column := 0,
                      text := "fix this", author := "Alice", timestamp := 100,
                      projectPath := "/tmp/proj" }] else none,
          disk := [], committedDisk := [],
          git := { remotes := ["origin"], commits := [], pushedCount := 0 } }
        (Except.ok []) "/tmp/proj").1.mem "/other"
      = (if ("/other" : String) = "/tmp/proj" then
           some [{ id := "a1", filePath := "a.ts", line := 10, column := 0,
                   text := "fix this", author := "Alice", timestamp := 100,
                   projectPath := "/tmp/proj" }] else none) :=
  store_ops_frame_other_projects _
    { id := "b2", filePath := "b.ts", line := 5, column := 0,
      text := "note", author := "Bob", timestamp := 50, projectPath := "/tmp/proj" }
    "a1" "/tmp/proj" "/other" "fixed" 200 (Except.ok []) (by decide) (by decide)

theorem updateFirst_find (id nt : String) (now : Nat) :
    ∀ (l : List Annotation) (a : Annotation),
      l.filter (fun x => x.id == id) = [a] →
      l.find? (fun x => x.id == id) = some a ∧
      (updateFirst id nt now l).find? (fun x => x.id == id)
        = some { a with text := nt, timestamp := now } := by
  intro l
  induction l with
  | nil => intro a h; simp at h
  | cons x rest ih =>
      intro a h
      rw [List.filter_cons] at h
      by_cases hx : (x.id == id) = true
      · rw [if_pos hx] at h
        have hxa : x = a := (List.cons_eq_cons.mp h).1
        subst hxa
        constructor
        · simp [List.find?_cons, hx]
        · have hupd : updateFirst id nt now (x :: rest)
              = { x with text := nt, timestamp := now } :: rest := by
            simp [updateFirst, hx]
          have hx2 : (({ x with text := nt, timestamp := now } : Annotation).id == id)
              = true := by
            simpa using hx
          rw [hupd]
          simp [List.find?_cons, hx2]
      · rw [if_neg hx] at h
        obtain ⟨h1, h2⟩ := ih a h
        constructor
        · simp [List.find?_cons, hx, h1]
        · have hupd : updateFirst id nt now (x :: rest)
              = x :: updateFirst id nt now rest := by
            simp [updateFirst, hx]
          rw [hupd]
          simp [List.find?_cons, hx, h2]

/-- Claim C2: when the project's collection contains exactly one annotation
`a` with the requested id, after `updateAnnotation(id, p, newText)` (with
clock reading `now`, and assuming the clock has advanced past the stored
timestamp) the annotation found under that id has `text = newText`, the
same `id`, `filePath`, `line`, `column`, `author` and `projectPath` as
before, and a strictly larger `timestamp`. -/
theorem updateAnnotation_preserves_identity (s : SysState)
    (id p newText : String) (now : Nat) (a : Annotation)
    (hfind : ((s.mem p).getD []).filter (fun x => x.id == id) = [a])
    (hclock : a.timestamp < now) :
    getAnnotationById ( updateAnnotation s id p newText now).1 id p
      = some { a with text := newText, timestamp := now }
  ∧ a.timestamp < ({ a with text := newText, timestamp := now } : Annotation).timestamp := by
  obtain ⟨h1, h2⟩ := updateFirst_find id newText now ((s.mem p).getD []) a hfind
  constructor
  · show getAnnotationById ( updateAnnotation s id p newText now).1 id p = _
    unfold updateAnnotation
    simp only [h1]
    unfold getAnnotationById
    rw [saveAnnotations_mem]
    simp only [setMem_self, Option.getD_some]
    exact h2
  · exact hclock

/-- Witness for C2 at a concrete two-annotation state. -/
theorem updateAnnotation_preserves_identity_witness :
    getAnnotationById
        ( updateAnnotation
          { repoPath := some "/repo",
            mem := fun q => if q = "/tmp/proj" then
                some [{ id := "a1", filePath := "a.ts", line := 10, column := 0,
                        text := "fix this", author := "Alice", timestamp := 100,
                        projectPath := "/tmp/proj" },
                      { id := "b2", filePath := "b.ts", line := 5, column := 0,
                        text := "note", author := "Bob", timestamp := 50,
                        projectPath := "/tmp/proj" }] else none,
            disk := [], committedDisk := [],
            git := { remotes := ["origin"], commits := [], pushedCount := 0 } }
          "a1" "/tmp/proj" "fixed" 200).1 "a1" "/tmp/proj"
      = some { id := "a1", filePath := "a.ts", line := 10, column := 0,
               text := "fixed", author := "Alice", timestamp := 200,
               projectPath := "/tmp/proj" }
  ∧ (100 : Nat) < 200 :=
  updateAnnotation_preserves_identity _ "a1" "/tmp/proj" "fixed" 200
    { id := "a1", filePath := "a.ts", line := 10, column := 0,
      text := "fix this", author := "Alice", timestamp := 100,
      projectPath := "/tmp/proj" } (by decide) (by decide)

/-- Claim C5: for a valid annotation `a` whose id does not occur in its
project's collection, `removeAnnotation ( addAnnotation s a) a.id` restores
the in-memory collection that preceded the add. -/
theorem add_remove_inverse (s : SysState) (a : Annotation)
    (h : ∀ x ∈ getAllAnnotations s a.projectPath, x.id ≠ a.id) :
    getAllAnnotations
        ( removeAnnotation ( addAnnotation s a).1 a.id a.projectPath).1 a.projectPath
      = getAllAnnotations s a.projectPath := by
  have hmem : ( addAnnotation s a).1.mem
      = setMem s.mem a.projectPath (((s.mem a.projectPath).getD []) ++ [a]) := by
    unfold addAnnotation
    rw [saveAnnotations_mem]
  unfold removeAnnotation getAllAnnotations
  rw [saveAnnotations_mem]
  simp only [hmem, setMem_self, Option.getD_some]
  rw [List.filter_append]
  have hkeep : ((s.mem a.projectPath).getD []).filter (fun x => x.id != a.id)
      = (s.mem a.projectPath).getD [] := by
    apply List.filter_eq_self.mpr
    intro x hx
    simpa using h x hx
  have hdrop : ([a].filter (fun x => x.id != a.id)) = [] := by
    simp
  rw [hkeep, hdrop, List.append_nil]

/-- Witness for C5: add then remove a fresh annotation on a concrete state. -/
theorem add_remove_inverse_witness :
    getAllAnnotations
        ( removeAnnotation
          ( addAnnotation
            { repoPath := some "/repo",
              mem := fun q => if q = "/tmp/proj" then
                  some [{ id := "a1", filePath := "a.ts", line := 10, column := 0,
                          text := "fix this", author := "Alice", timestamp := 100,
                          projectPath := "/tmp/proj" }] else none,
              disk := [], committedDisk := [],
              git := { remotes := ["origin"], commits := [], pushedCount := 0 } }
            { id := "c3", filePath := "c.ts", line := 1, column := 0,
              text := "temp", author := "Carol", timestamp := 300,
              projectPath := "/tmp/proj" }).1
          "c3" "/tmp/proj").1 "/tmp/proj"
      = getAllAnnotations
          { repoPath := some "/repo",
            mem := fun q => if q = "/tmp/proj" then
                some [{ id := "a1", filePath := "a.ts", line := 10, column := 0,
                        text := "fix this", author := "Alice", timestamp := 100,
                        projectPath := "/tmp/proj" }] else none,
            disk := [], committedDisk := [],
            git := { remotes := ["origin"], commits := [], pushedCount := 0 } } "/tmp/proj" :=
  add_remove_inverse _
    { id := "c3", filePath := "c.ts", line := 1, column := 0,
      text := "temp", author := "Carol", timestamp := 300,
      projectPath := "/tmp/proj" } (by decide)

/-- Claim C6: `getAnnotationsForFile` returns exactly the subsequence of the
project's collection whose `filePath` is string-equal to the argument, in
the original order: the result is a sublist (order preserved), every
returned annotation carries the requested `filePath`, every matching
annotation appears with its full multiplicity, and annotations of other
files never appear. -/
theorem getAnnotationsForFile_exact_subsequence (s : SysState) (f p : String) :
    (getAnnotationsForFile s f p).Sublist (getAllAnnotations s p)
  ∧ (∀ x ∈ getAnnotationsForFile s f p, x.filePath = f)
  ∧ (∀ x : Annotation, x.filePath = f →
       (getAnnotationsForFile s f p).count x = (getAllAnnotations s p).count x)
  ∧ (∀ x : Annotation, x.filePath ≠ f → x ∉ getAnnotationsForFile s f p) := by
  refine ⟨List.filter_sublist _, ?_, ?_, ?_⟩
  · intro x hx
    have := (List.mem_filter.mp hx).2
    simpa using this
  · intro x hfx
    unfold getAnnotationsForFile getAllAnnotations
    rw [List.count_filter]
    simp [hfx]
  · intro x hfx hmemx
    have := (List.mem_filter.mp hmemx).2
    simp only [beq_iff_eq] at this
    exact hfx this

/-- Witness for C6 on a concrete two-file collection. -/
theorem getAnnotationsForFile_exact_subsequence_witness :
    (getAnnotationsForFile
        { repoPath := some "/repo",
          mem := fun q => if q = "/tmp/proj" then
              some [{ id := "a1", filePath := "a.ts", line := 10, column := 0,
                      text := "fix this", author := "Alice", timestamp := 100,
                      projectPath := "/tmp/proj" },
                    { id := "b2", filePath := "b.ts", line := 5, column := 0,
                      text := "note", author := "Bob", timestamp := 50,
                      projectPath := "/tmp/proj" }] else none,
          disk := [], committedDisk := [],
          git := { remotes := ["origin"], commits := [], pushedCount := 0 } }
        "a.ts" "/tmp/proj").Sublist
      (getAllAnnotations
        { repoPath := some "/repo",
          mem := fun q => if q = "/tmp/proj" then
              some [{ id := "a1", filePath := "a.ts", line := 10, column := 0,
                      text := "fix this", author := "Alice", timestamp := 100,
                      projectPath := "/tmp/proj" },
                    { id := "b2", filePath := "b.ts", line := 5, column := 0,
                      text := "note", author := "Bob", timestamp := 50,
                      projectPath := "/tmp/proj" }] else none,
          disk := [], committedDisk := [],
          git := { remotes := ["origin"], commits := [], pushedCount := 0 } } "/tmp/proj")
  ∧ (∀ x ∈ getAnnotationsForFile
        { repoPath := some "/repo",
          mem := fun q => if q = "/tmp/proj" then
              some [{ id := "a1", filePath := "a.ts", line := 10, column := 0,
                      text := "fix this", author := "Alice", timestamp := 100,
                      projectPath := "/tmp/proj" },
                    { id := "b2", filePath := "b.ts", line := 5, column := 0,
                      text := "note", author := "Bob", timestamp := 50,
                      projectPath := "/tmp/proj" }] else none,
          disk := [], committedDisk := [],
          git := { remotes := ["origin"], commits := [], pushedCount := 0 } }
        "a.ts" "/tmp/proj", x.filePath = "a.ts")
  ∧ (∀ x : Annotation, x.filePath = "a.ts" →
       (getAnnotationsForFile
        { repoPath := some "/repo",
          mem := fun q => if q = "/tmp/proj" then
              some [{ id := "a1", filePath := "a.ts", line := 10, column := 0,
                      text := "fix this", author := "Alice", timestamp := 100,
                      projectPath := "/tmp/proj" },
                    { id := "b2", filePath := "b.ts", line := 5, column := 0,
                      text := "note", author := "Bob", timestamp := 50,
                      projectPath := "/tmp/proj" }] else none,
          disk := [], committedDisk := [],
          git := { remotes := ["origin"], commits := [], pushedCount := 0 } }
        "a.ts" "/tmp/proj").count x
         = (getAllAnnotations
        { repoPath := some "/repo",
          mem := fun q => if q = "/tmp/proj" then
              some [{ id := "a1", filePath := "a.ts", line := 10, column := 0,
                      text := "fix this", author := "Alice", timestamp := 100,
                      projectPath := "/tmp/proj" },
                    { id := "b2", filePath := "b.ts", line := 5, column := 0,
                      text := "note", author := "Bob", timestamp := 50,
                      projectPath := "/tmp/proj" }] else none,
          disk := [], committedDisk := [],
          git := { remotes := ["origin"], commits := [], pushedCount := 0 } } "/tmp/proj").count x)
  ∧ (∀ x : Annotation, x.filePath ≠ "a.ts" →
       x ∉ getAnnotationsForFile
        { repoPath := some "/repo",
          mem := fun q => if q = "/tmp/proj" then
              some [{ id := "a1", filePath := "a.ts", line := 10, column := 0,
                      text := "fix this", author := "Alice", timestamp := 100,
                      projectPath := "/tmp/proj" },
                    { id := "b2", filePath := "b.ts", line := 5, column := 0,
                      text := "note", author := "Bob", timestamp := 50,
                      projectPath := "/tmp/proj" }] else none,
          disk := [], committedDisk := [],
          git := { remotes := ["origin"], commits := [], pushedCount := 0 } }
        "a.ts" "/tmp/proj") :=
  getAnnotationsForFile_exact_subsequence _ "a.ts" "/tmp/proj"

theorem commitChanges_spec (s : SysState) (p m r : String) (hrepo : s.repoPath = some r) :
    (commitChanges s p m).1.mem = s.mem
  ∧ (commitChanges s p m).1.repoPath = some r
  ∧ (commitChanges s p m).1.disk
      = setAssoc (getAnnotationFilePath p r)
          (DiskDoc.valid { annotations := (s.mem p).getD [], version := "1.0" }) s.disk
  ∧ (commitChanges s p m).1.committedDisk = (commitChanges s p m).1.disk := by
  have hsave : saveAnnotations s p
      = ({ s with
            disk := setAssoc (getAnnotationFilePath p r)
                      (DiskDoc.valid { annotations := (s.mem p).getD [], version := "1.0" })
                      s.disk },
         none) := by
    simp [saveAnnotations, hrepo]
  have hcc : commitChanges s p m
      = commitAndPush
          { s with
            disk := setAssoc (getAnnotationFilePath p r)
                      (DiskDoc.valid { annotations := (s.mem p).getD [], version := "1.0" })
                      s.disk } m := by
    simp [commitChanges, hsave]
  rw [hcc]
  by_cases hd : setAssoc (getAnnotationFilePath p r)
      (DiskDoc.valid { annotations := (s.mem p).getD [], version := "1.0" }) s.disk
      = s.committedDisk
  · simp [commitAndPush, hrepo, hd]
  · simp [commitAndPush, hrepo, hd]

theorem commitChanges_clean_nocommit (t : SysState) (p m r : String)
    (hrepo : t.repoPath = some r)
    (hfix : setAssoc (getAnnotationFilePath p r)
        (DiskDoc.valid { annotations := (t.mem p).getD [], version := "1.0" }) t.disk
      = t.disk)
    (hclean : t.committedDisk = t.disk) :
    (commitChanges t p m).1.git = t.git ∧ (commitChanges t p m).2 = none := by
  obtain ⟨rp, mm, dk, cd, g⟩ := t
  simp only at hrepo hfix hclean
  subst hrepo
  subst hclean
  simp [commitChanges, saveAnnotations, commitAndPush, hfix]

/-- Claim C3: `commitAndPush` is an idempotent no-op when there is nothing
to record: once staging finds no difference from HEAD (no created,
modified or deleted paths), it returns successfully without creating a
commit; consequently a second `commitChanges` with no intervening mutation
re-saves an identical document and performs no further commit, so two
consecutive calls produce the commits of the first call alone. -/
theorem commitAndPush_idempotent_noop (s : SysState) (p m1 m2 r : String)
    (hrepo : s.repoPath = some r) :
    (s.disk = s.committedDisk → commitAndPush s m1 = (s, none))
  ∧ (commitChanges (commitChanges s p m1).1 p m2).1.git.commits
      = (commitChanges s p m1).1.git.commits := by
  constructor
  · intro h
    simp [commitAndPush, hrepo, h]
  · obtain ⟨hmem, hrp, hdisk, hcd⟩ := commitChanges_spec s p m1 r hrepo
    have hfix : setAssoc (getAnnotationFilePath p r)
        (DiskDoc.valid
          { annotations := ((commitChanges s p m1).1.mem p).getD [], version := "1.0" })
        (commitChanges s p m1).1.disk = (commitChanges s p m1).1.disk := by
      rw [hmem, hdisk]
      exact setAssoc_idem _ _ _
    have h2 := commitChanges_clean_nocommit (commitChanges s p m1).1 p m2 r hrp hfix hcd
    rw [h2.1]

/-- Witness for C3: on a concrete state whose document is not yet on disk,
the no-op direction holds at the clean state, and the second of two
consecutive `commitChanges` calls adds no commit. -/
theorem commitAndPush_idempotent_noop_witness :
    (({ repoPath := some "/repo",
        mem := fun q => if q = "/tmp/proj" then
            some [{ id := "a1", filePath := "a.ts", line := 10, column := 0,
                    text := "fix this", author := "Alice", timestamp := 100,
                    projectPath := "/tmp/proj" }] else none,
        disk := [], committedDisk := [],
        git := { remotes := [], commits := [], pushedCount := 0 } } : SysState).disk
        = ({ repoPath := some "/repo",
             mem := fun q => if q = "/tmp/proj" then
                 some [{ id := "a1", filePath := "a.ts", line := 10, column := 0,
                         text := "fix this", author := "Alice", timestamp := 100,
                         projectPath := "/tmp/proj" }] else none,
             disk := [], committedDisk := [],
             git := { remotes := [], commits := [], pushedCount := 0 } } : SysState).committedDisk →
      commitAndPush
          { repoPath := some "/repo",
            mem := fun q => if q = "/tmp/proj" then
                some [{ id := "a1", filePath := "a.ts", line := 10, column := 0,
                        text := "fix this", author := "Alice", timestamp := 100,
                        projectPath := "/tmp/proj" }] else none,
            disk := [], committedDisk := [],
            git := { remotes := [], commits := [], pushedCount := 0 } } "first save"
        = ({ repoPath := some "/repo",
             mem := fun q => if q = "/tmp/proj" then
                 some [{ id := "a1", filePath := "a.ts", line := 10, column := 0,
                         text := "fix this", author := "Alice", timestamp := 100,
                         projectPath := "/tmp/proj" }] else none,
             disk := [], committedDisk := [],
             git := { remotes := [], commits := [], pushedCount := 0 } }, none))
  ∧ (commitChanges
        (commitChanges
          { repoPath := some "/repo",
            mem := fun q => if q = "/tmp/proj" then
                some [{ id := "a1", filePath := "a.ts", line := 10, column := 0,
                        text := "fix this", author := "Alice", timestamp := 100,
                        projectPath := "/tmp/proj" }] else none,
            disk := [], committedDisk := [],
            git := { remotes := [], commits := [], pushedCount := 0 } }
          "/tmp/proj" "first save").1
        "/tmp/proj" "second save").1.git.commits
      = (commitChanges
          { repoPath := some "/repo",
            mem := fun q => if q = "/tmp/proj" then
                some [{ id := "a1", filePath := "a.ts", line := 10, column := 0,
                        text := "fix this", author := "Alice", timestamp := 100,
                        projectPath := "/tmp/proj" }] else none,
            disk := [], committedDisk := [],
            git := { remotes := [], commits := [], pushedCount := 0 } }
          "/tmp/proj" "first save").1.git.commits :=
  commitAndPush_idempotent_noop _ "/tmp/proj" "first save" "second save" "/repo" rfl

set_option maxRecDepth 8000 in
/-- Counterexample to C4 as stated: the sanitizer of `hashProjectPath`
keeps `-` (its regex class is `[^a-zA-Z0-9-_]`), while the claim demands
that every non-alphanumeric character of the basename be replaced by `_`;
on the project path `/tmp/my-proj` the code's location and the claimed
location differ. -/
theorem sanitizer_keeps_dash_counterexample :
    getAnnotationFilePath "/tmp/my-proj" "/repo"
      ≠ claimedFilePath "/tmp/my-proj" "/repo" := by decide

theorem toBytesBE_length (k : Nat) : ∀ n : Nat, (toBytesBE k n).length = k := by
  induction k with
  | zero => intro n; rfl
  | succ k ih => intro n; simp [toBytesBE, ih]

theorem sha256Bytes_length (msg : List Nat) : (sha256Bytes msg).length = 32 := by
  simp [sha256Bytes, toBytesBE_length]

theorem bytesToHex_length : ∀ l : List Nat, (bytesToHex l).length = 2 * l.length := by
  intro l
  induction l with
  | nil => rfl
  | cons b rest ih =>
      simp [bytesToHex, ih]
      omega

theorem sha256hexChars_length (s : String) : (sha256hexChars s).length = 64 := by
  simp [sha256hexChars, bytesToHex_length, sha256Bytes_length]

/-- Claim C4 (amended): for every project path, the storage location is
`repoRoot / "<basename>_<digest>" / "annotations.json"`, where the digest
is the 256-bit SHA-256 digest (64 hex characters) of the normalized path
truncated to 16 hex characters, and the basename is the project's basename
with every character other than ASCII letters, digits, `-` and `_`
replaced by `_` (the code keeps `-` and `_`, which the original claim did
not allow). -/
theorem getAnnotationFilePath_structure (p repo : String) :
    getAnnotationFilePath p repo
      = pathJoin (pathJoin repo
          (String.mk ((pathBasename (pathNormalize p)).data.map sanitizeChar)
            ++ "_" ++ String.mk ((sha256hexChars (pathNormalize p)).take 16)))
          "annotations.json"
  ∧ (sha256hexChars (pathNormalize p)).length = 64
  ∧ ((sha256hexChars (pathNormalize p)).take 16).length = 16 := by
  refine ⟨rfl, sha256hexChars_length _, ?_⟩
  rw [List.length_take, sha256hexChars_length]
  omega
